import Mathlib

/-!
Shallow embedding of the TimeTracker repository (client logic in
src/src/App.jsx, persistence backend in src/server/index.js) and proofs
about the claims of its specification.

JavaScript numbers are modelled by `Option ℚ`: `some x` is a finite
number, `none` is NaN.  The infinities, which none of the code paths
under study can produce or distinguish from NaN via the checks it makes
(`Number.isFinite`, truthiness, addition), are not modelled separately.
JavaScript values that can sit in a dynamically-typed field (such as the
`hours` of a persisted entry, or a `rate`) are modelled by `JsVal`;
`toNumber` is the JS `Number(·)` coercion restricted to that universe,
with plain decimal strings (optional sign, digits, optional fraction)
parsed the way `Number` parses them and every other string yielding NaN.
-/

namespace TimeTracker

/-- A JavaScript value as it may appear in a dynamically-typed field of the
persisted document: a finite number, NaN, a string, a boolean, null or
undefined. -/
inductive JsVal where
  | num (x : ℚ)
  | nan
  | str (s : String)
  | bool (b : Bool)
  | null
  | undef
deriving DecidableEq, Repr

/-- JS truthiness of a `JsVal` (`Boolean(v)`). -/
def truthy : JsVal → Bool
  | .num x => decide (x ≠ 0)
  | .nan => false
  | .str s => !s.isEmpty
  | .bool b => b
  | .null => false
  | .undef => false

/-- Whether a `JsVal` is nullish, i.e. `null` or `undefined` (the values the
JS nullish-coalescing operator skips over). -/
def nullish : JsVal → Bool
  | .null => true
  | .undef => true
  | _ => false

/-- The JS nullish-coalescing operator on modelled values. -/
def coalesce (a b : JsVal) : JsVal := if nullish a then b else a

/-- Value of a list of decimal digit characters, most significant first. -/
def digitsToNat (cs : List Char) : Nat :=
  cs.foldl (fun a c => a * 10 + (c.toNat - 48)) 0

/-- Parse an unsigned decimal numeral (digits, optionally a dot and more
digits); `none` models NaN. -/
def parseUnsigned (cs : List Char) : Option ℚ :=
  let intPart := cs.takeWhile (fun c => c != '.')
  let rest := cs.dropWhile (fun c => c != '.')
  match rest with
  | [] =>
    if !intPart.isEmpty && intPart.all Char.isDigit then
      some ((digitsToNat intPart : ℚ))
    else none
  | _ :: frac =>
    if (!intPart.isEmpty || !frac.isEmpty)
        && intPart.all Char.isDigit && frac.all Char.isDigit then
      some ((digitsToNat intPart : ℚ) + (digitsToNat frac : ℚ) / ((10 : ℚ) ^ frac.length))
    else none

/-- The JS `Number(·)` coercion on modelled values; `none` is NaN. -/
def toNumber : JsVal → Option ℚ
  | .num x => some x
  | .nan => none
  | .str s =>
    match s.trim.toList with
    | [] => some 0
    | c :: rest =>
      if c = '-' then (parseUnsigned rest).map (fun x => -x)
      else if c = '+' then parseUnsigned rest
      else parseUnsigned (c :: rest)
  | .bool b => some (if b then 1 else 0)
  | .null => some 0
  | .undef => none

/-- JS addition on modelled numbers: NaN absorbs. -/
def jsAdd (a b : Option ℚ) : Option ℚ :=
  match a, b with
  | some x, some y => some (x + y)
  | _, _ => none

/-- JS `>=` on modelled numbers: any comparison involving NaN is false. -/
def jsGe (a b : Option ℚ) : Bool :=
  match a, b with
  | some x, some y => decide (y ≤ x)
  | _, _ => false

/-- The coercion `Number(entry.hours || 0)` used by `sumHours`,
`getProjectHours` and `entryByDate` in App.jsx. -/
def coerceHours (v : JsVal) : Option ℚ :=
  toNumber (if truthy v then v else JsVal.num 0)

/-- An entry of a project: `{ id, date, hours }` (App.jsx data model).
`date` is an ISO `YYYY-MM-DD` string; `hours` may be any JS value in a
persisted document. -/
structure Entry where
  id : String
  date : String
  hours : JsVal
deriving DecidableEq, Repr

/-- A project: `{ id, name, rate, archived, entries }` (App.jsx data
model, after normalization `archived` is a boolean). -/
structure Project where
  id : String
  name : String
  rate : JsVal
  archived : Bool
  entries : List Entry
deriving DecidableEq, Repr

/-- The profile: `{ name, rate }`. -/
structure Profile where
  name : String
  rate : JsVal
deriving DecidableEq, Repr

/-- The whole persisted document: `{ profile, projects }`. -/
structure Doc where
  profile : Profile
  projects : List Project
deriving DecidableEq, Repr

/-- App.jsx `sumHours`:
`entries.reduce((total, entry) => total + Number(entry.hours || 0), 0)`. -/
def sumHours (entries : List Entry) : Option ℚ :=
  entries.foldl (fun total entry => jsAdd total (coerceHours entry.hours)) (some 0)

/-- Lexicographic comparison of strings as lists of characters, by code
point: the order JS gives both to ISO date strings and (for fixed-width
`YYYY-MM-DD` input) to the `Date` objects the code builds from them. -/
def charListLe : List Char → List Char → Bool
  | [], _ => true
  | _ :: _, [] => false
  | a :: as, b :: bs =>
    if a.toNat < b.toNat then true
    else if b.toNat < a.toNat then false
    else charListLe as bs

/-- Date comparison on ISO `YYYY-MM-DD` strings. -/
def dateLe (a b : String) : Bool := charListLe a.toList b.toList

/-- A summary date-range filter: `none` is the all-time view (no bounds),
`some (rangeStart, rangeEnd)` is an inclusive range.  Dates are modelled
by their ISO `YYYY-MM-DD` strings, whose lexicographic order agrees with
the chronological order the code obtains by comparing `Date` objects,
since the format is fixed width. -/
def DateRange := Option (String × String)

/-- App.jsx `isInRange`: true when there is no active range, else the
inclusive bounds check `rangeStart <= d && d <= rangeEnd`. -/
def isInRange (range : DateRange) (dateString : String) : Bool :=
  match range with
  | none => true
  | some (rangeStart, rangeEnd) =>
    dateLe rangeStart dateString && dateLe dateString rangeEnd

/-- App.jsx `getProjectHours`: the range-filtered sum of coerced hours. -/
def getProjectHours (range : DateRange) (entries : List Entry) : Option ℚ :=
  entries.foldl
    (fun total entry =>
      if isInRange range entry.date then jsAdd total (coerceHours entry.hours)
      else total)
    (some 0)

/-- App.jsx `getProjectRate`:
`Number(project?.rate ?? state.profile.rate ?? 0)`. -/
def getProjectRate (profileRate projectRate : JsVal) : Option ℚ :=
  toNumber (coalesce projectRate (coalesce profileRate (JsVal.num 0)))

/-- A project of a raw (persisted, not yet normalized) document: `rate`
and `archived` may be any JS value and `entries` may fail to be an array
(`none`). -/
structure RawProject where
  id : String
  name : String
  rate : JsVal
  archived : JsVal
  entries : Option (List Entry)
deriving DecidableEq, Repr

/-- A raw document that passed the shape guard of `normalizeState`
(`value?.profile` present, `value?.projects` an array); the guard's
failure branch, which returns the built-in default state, is not needed
by any claim. -/
structure RawDoc where
  profile : Profile
  projects : List RawProject
deriving DecidableEq, Repr

/-- The per-project body of App.jsx `normalizeState`:
`rate: project.rate ?? value.profile.rate ?? 0`,
`archived: Boolean(project.archived)`,
`entries: Array.isArray(project.entries) ? project.entries : []`. -/
def normalizeProject (profileRate : JsVal) (project : RawProject) : Project :=
  { id := project.id
    name := project.name
    rate := coalesce project.rate (coalesce profileRate (JsVal.num 0))
    archived := truthy project.archived
    entries := project.entries.getD [] }

/-- App.jsx `normalizeState` on a document that passed the shape guard. -/
def normalizeState (value : RawDoc) : Doc :=
  { profile := value.profile
    projects := value.projects.map (normalizeProject value.profile.rate) }

/-- App.jsx `entryByDate` (CalendarView): the lookup table built by
`entries.reduce((acc, entry) => { acc[entry.date] = Number(entry.hours || 0); return acc; }, {})`,
modelled as a function from date keys to `some` coerced hours (present
key) or `none` (absent key, i.e. undefined). -/
def entryByDate (entries : List Entry) : String → Option (Option ℚ) :=
  entries.foldl
    (fun accumulator entry =>
      fun d => if d == entry.date then some (coerceHours entry.hours) else accumulator d)
    (fun _ => none)

/-- App.jsx `removeProject`:
`prev.projects.filter((project) => project.id !== projectId)`. -/
def removeProject (doc : Doc) (projectId : String) : Doc :=
  { doc with projects := doc.projects.filter (fun project => project.id != projectId) }

/-- The per-project body of App.jsx `setEntryHours` (the function mapped
over `prev.projects` once the new value passed `Number.isFinite`);
`newId` stands for the `makeId()` call of the creation branch. -/
def setEntryHoursProject (projectId date newId : String) (nextHours : ℚ)
    (project : Project) : Project :=
  if project.id != projectId then project
  else
    match project.entries.find? (fun entry => entry.date == date) with
    | some existing =>
      if nextHours ≤ 0 then
        { project with
            entries := project.entries.filter (fun entry => entry.id != existing.id) }
      else
        { project with
            entries := project.entries.map (fun entry =>
              if entry.id == existing.id then { entry with hours := JsVal.num nextHours }
              else entry) }
    | none =>
      if nextHours ≤ 0 then project
      else
        { project with
            entries := project.entries ++ [{ id := newId, date := date, hours := JsVal.num nextHours }] }

/-- App.jsx `setEntryHours` (the calendar grid's `setHoursForDate`):
coerce the submitted value with `Number`, bail out when it is not finite,
otherwise map the upsert-or-delete body over the projects. -/
def setEntryHours (newId : String) (doc : Doc) (projectId date : String)
    (hoursValue : JsVal) : Doc :=
  match toNumber hoursValue with
  | none => doc
  | some nextHours =>
    { doc with
        projects := doc.projects.map (setEntryHoursProject projectId date newId nextHours) }

/-- Auth-gate configuration: the two optional expected secrets
(`VITE_LOGIN_USER`, `VITE_LOGIN_PASS`); the empty string means
unconfigured. -/
structure AuthConfig where
  expectedUser : String
  expectedPass : String
deriving DecidableEq, Repr

/-- The LoginScreen state relevant to `handleSubmit`: the authenticated
flag (`onSuccess` fired), `lockUntil` (0 when no lock, JS falsy), the
volatile failed-attempt counter and the inline error message. -/
structure AuthState where
  isAuthed : Bool
  lockUntil : Nat
  failedAttempts : Nat
  error : String
deriving DecidableEq, Repr

/-- The lockout error message of LoginScreen. -/
def lockMessage : String := "Too many attempts. Try again shortly."

/-- The invalid-credentials error message of LoginScreen. -/
def invalidMessage : String := "Invalid credentials. Try again."

/-- The credential check of LoginScreen `handleSubmit`:
`(expectedUser ? username === expectedUser : true) && (expectedPass ? password === expectedPass : true)`. -/
def matchOk (cfg : AuthConfig) (username password : String) : Bool :=
  (if cfg.expectedUser != "" then username == cfg.expectedUser else true)
    && (if cfg.expectedPass != "" then password == cfg.expectedPass else true)

/-- LoginScreen `handleSubmit` as a step function on `AuthState`, with
`now` the submission time in milliseconds. -/
def handleSubmit (cfg : AuthConfig) (st : AuthState) (now : Nat)
    (username password : String) : AuthState :=
  if st.lockUntil != 0 && decide (now < st.lockUntil) then
    { st with error := lockMessage }
  else if matchOk cfg username password then
    { st with isAuthed := true, failedAttempts := 0 }
  else if st.failedAttempts + 1 ≥ 5 then
    { st with lockUntil := now + 30 * 1000, failedAttempts := 0, error := lockMessage }
  else
    { st with failedAttempts := st.failedAttempts + 1, error := invalidMessage }

/-- A sequence of submissions, each a time and a username/password pair,
applied in order. -/
def submitSeq (cfg : AuthConfig) (st : AuthState)
    (subs : List (Nat × String × String)) : AuthState :=
  subs.foldl (fun s t => handleSubmit cfg s t.1 t.2.1 t.2.2) st

/-- A JSON value, as a request body parsed by `express.json`. -/
inductive Json where
  | null
  | bool (b : Bool)
  | num (x : ℚ)
  | str (s : String)
  | arr (xs : List Json)
  | obj (fields : List (String × Json))

/-- JS truthiness of a parsed JSON value (no NaN or undefined can occur
in parsed JSON). -/
def truthyJson : Json → Bool
  | .null => false
  | .bool b => b
  | .num x => decide (x ≠ 0)
  | .str s => !s.isEmpty
  | .arr _ => true
  | .obj _ => true

/-- Optional-chained member access `v?.key`: a field of an object, else
undefined (`none`); on `null` and non-objects the result is undefined or
a TypeError avoided by the optional chain, both modelled as `none`. -/
def jsonField : Json → String → Option Json
  | .obj fields, key => fields.lookup key
  | _, _ => none

/-- `Array.isArray` on an optional JSON value. -/
def isArrayJson : Option Json → Bool
  | some (.arr _) => true
  | _ => false

/-- The validation of server/index.js `PUT /api/state`: the request is
rejected with 400 unless `state?.profile` is truthy and
`state?.projects` is an array. -/
def putStateAccepts (body : Json) : Bool :=
  let state := jsonField body "state"
  let profileOk :=
    match state with
    | some st =>
      match jsonField st "profile" with
      | some v => truthyJson v
      | none => false
    | none => false
  let projectsOk :=
    match state with
    | some st => isArrayJson (jsonField st "projects")
    | none => false
  profileOk && projectsOk

/-- server/index.js `PUT /api/state` against the single stored row:
on acceptance the `state` blob is upserted verbatim and the response is
200 `{ ok: true }`; otherwise the row is untouched and the response is
400. -/
def putState (stored : Option Json) (body : Json) : Option Json × Nat :=
  if putStateAccepts body then (jsonField body "state", 200) else (stored, 400)

/-- The contribution the spec assigns to an hours value in C1: the value
itself when it is a finite non-negative number, and 0 otherwise. -/
def nonnegHours (hv : JsVal) : ℚ :=
  match hv with
  | JsVal.num x => if 0 ≤ x then x else 0
  | _ => 0

/-- Sum over only the finite non-negative hours values, as the spec words
it in C1. -/
def specNonnegSum (entries : List Entry) : ℚ :=
  (entries.map (fun entry => nonnegHours entry.hours)).sum

/-- The payload shape `PUT /api/state` in fact demands, spelled out as a
predicate: a `state` field whose `profile` is truthy and whose
`projects` is an array. -/
def validStateShape (body : Json) : Prop :=
  ∃ st, jsonField body "state" = some st ∧
    (∃ v, jsonField st "profile" = some v ∧ truthyJson v = true) ∧
    (∃ xs, jsonField st "projects" = some (Json.arr xs))

/-- A concrete one-project document used by concrete instantiations. -/
def demoDoc : Doc :=
  { profile := { name := "", rate := JsVal.num 85 }
    projects := [{ id := "p1", name := "Atlas redesign", rate := JsVal.num 85, archived := false,
                   entries := [{ id := "e1", date := "2024-01-05", hours := JsVal.num 4 }] }] }

/-- A concrete raw document whose single project has no rate of its own. -/
def rawDemo : RawDoc :=
  { profile := { name := "", rate := JsVal.num 85 }
    projects := [{ id := "p1", name := "Atlas redesign", rate := JsVal.undef,
                   archived := JsVal.bool false, entries := some [] }] }

/-- Containment of date-range filters: `none` (no filter) is the widest
range; an inclusive `[s₁, e₁]` is inside `[s₂, e₂]` when `s₂ ≤ s₁` and
`e₁ ≤ e₂`. -/
def rangeSub : DateRange → DateRange → Bool
  | _, none => true
  | none, some _ => false
  | some (s₁, e₁), some (s₂, e₂) => dateLe s₂ s₁ && dateLe e₁ e₂

/-! Helper lemmas. -/

theorem charListLe_cons_iff {a b : Char} {as bs : List Char} :
    charListLe (a :: as) (b :: bs) = true ↔
      (a.toNat < b.toNat ∨ (a.toNat = b.toNat ∧ charListLe as bs = true)) := by
  simp only [charListLe]
  split
  · rename_i h; simp; omega
  · split
    · rename_i h1 h2; simp; omega
    · rename_i h1 h2
      constructor
      · intro h; right; exact ⟨by omega, h⟩
      · intro h
        rcases h with h | ⟨_, h⟩
        · omega
        · exact h

theorem charListLe_trans :
    ∀ a b c, charListLe a b = true → charListLe b c = true → charListLe a c = true := by
  intro a
  induction a with
  | nil => intros; rfl
  | cons x xs ih =>
    intro b c hab hbc
    cases b with
    | nil => simp [charListLe] at hab
    | cons y ys =>
      cases c with
      | nil => simp [charListLe] at hbc
      | cons z zs =>
        rw [charListLe_cons_iff] at hab hbc ⊢
        rcases hab with h1 | ⟨h1, h1'⟩
        · rcases hbc with h2 | ⟨h2, _⟩
          · left; omega
          · left; omega
        · rcases hbc with h2 | ⟨h2, h2'⟩
          · left; omega
          · right; exact ⟨by omega, ih ys zs h1' h2'⟩

theorem dateLe_trans {a b c : String} (h1 : dateLe a b = true) (h2 : dateLe b c = true) :
    dateLe a c = true :=
  charListLe_trans _ _ _ h1 h2

/-- A date inside a narrower range is inside any containing range. -/
theorem isInRange_mono {r₁ r₂ : DateRange} {d : String}
    (hsub : rangeSub r₁ r₂ = true) (h : isInRange r₁ d = true) :
    isInRange r₂ d = true := by
  match r₁, r₂ with
  | _, none => rfl
  | none, some _ => simp [rangeSub] at hsub
  | some (s₁, e₁), some (s₂, e₂) =>
    simp only [rangeSub, Bool.and_eq_true] at hsub
    simp only [isInRange, Bool.and_eq_true] at h ⊢
    exact ⟨dateLe_trans hsub.1 h.1, dateLe_trans h.2 hsub.2⟩

theorem find?_of_middle {α : Type} (p : α → Bool) (l₁ l₂ : List α) (e : α)
    (h₁ : ∀ x ∈ l₁, p x = false) (he : p e = true) :
    (l₁ ++ e :: l₂).find? p = some e := by
  rw [List.find?_append]
  have : l₁.find? p = none := List.find?_eq_none.mpr (by intro x hx; simp [h₁ x hx])
  rw [this, Option.none_or, List.find?_cons_of_pos _ he]

theorem filter_of_middle {α : Type} (p : α → Bool) (l₁ l₂ : List α) (e : α)
    (h₁ : ∀ x ∈ l₁, p x = true) (h₂ : ∀ x ∈ l₂, p x = true) (he : p e = false) :
    (l₁ ++ e :: l₂).filter p = l₁ ++ l₂ := by
  rw [List.filter_append, List.filter_cons_of_neg (by simp [he]),
    List.filter_eq_self.mpr h₁, List.filter_eq_self.mpr h₂]

theorem map_of_middle {α : Type} (f : α → α) (l₁ l₂ : List α) (e : α)
    (h₁ : ∀ x ∈ l₁, f x = x) (h₂ : ∀ x ∈ l₂, f x = x) :
    (l₁ ++ e :: l₂).map f = l₁ ++ f e :: l₂ := by
  rw [List.map_append, List.map_cons]
  congr 1
  · exact List.map_congr_left h₁ |>.trans (List.map_id l₁)
  · congr 1
    exact List.map_congr_left h₂ |>.trans (List.map_id l₂)

theorem setEntryHoursProject_skip {pid : String} (date nid : String) (v : ℚ)
    {q : Project} (h : q.id ≠ pid) :
    setEntryHoursProject pid date nid v q = q := by
  simp [setEntryHoursProject, bne_iff_ne, h]

/-- On the addressed project, when the first entry matching the date is
`e` (decomposition `l₁ ++ e :: l₂` with no match in `l₁`) and no other
entry shares the id of `e`, a positive value updates exactly the hours of
`e`. -/
theorem setEntryHoursProject_update {pid date : String} (nid : String) {v : ℚ}
    {p : Project} {l₁ l₂ : List Entry} {e : Entry}
    (hp : p.id = pid) (hent : p.entries = l₁ ++ e :: l₂)
    (h₁ : ∀ x ∈ l₁, x.date ≠ date) (he : e.date = date)
    (hid₁ : ∀ x ∈ l₁, x.id ≠ e.id) (hid₂ : ∀ x ∈ l₂, x.id ≠ e.id)
    (hv : 0 < v) :
    setEntryHoursProject pid date nid v p =
      { p with entries := l₁ ++ { e with hours := JsVal.num v } :: l₂ } := by
  have hfind : p.entries.find? (fun entry => entry.date == date) = some e := by
    rw [hent]
    exact find?_of_middle _ _ _ _
      (fun x hx => by simp [beq_eq_false_iff_ne, h₁ x hx]) (by simp [he])
  simp only [setEntryHoursProject, hp, bne_self_eq_false, Bool.false_eq_true, if_false,
    hfind, if_neg (not_le.mpr hv)]
  congr 1
  rw [hent]
  refine (map_of_middle _ l₁ l₂ e ?_ ?_).trans ?_
  · intro x hx
    simp [hid₁ x hx]
  · intro x hx
    simp [hid₂ x hx]
  · simp

/-- On the addressed project, a value ≤ 0 deletes exactly the first
entry matching the date. -/
theorem setEntryHoursProject_delete {pid date : String} (nid : String) {v : ℚ}
    {p : Project} {l₁ l₂ : List Entry} {e : Entry}
    (hp : p.id = pid) (hent : p.entries = l₁ ++ e :: l₂)
    (h₁ : ∀ x ∈ l₁, x.date ≠ date) (he : e.date = date)
    (hid₁ : ∀ x ∈ l₁, x.id ≠ e.id) (hid₂ : ∀ x ∈ l₂, x.id ≠ e.id)
    (hv : v ≤ 0) :
    setEntryHoursProject pid date nid v p = { p with entries := l₁ ++ l₂ } := by
  have hfind : p.entries.find? (fun entry => entry.date == date) = some e := by
    rw [hent]
    exact find?_of_middle _ _ _ _
      (fun x hx => by simp [beq_eq_false_iff_ne, h₁ x hx]) (by simp [he])
  simp only [setEntryHoursProject, hp, bne_self_eq_false, Bool.false_eq_true, if_false,
    hfind, if_pos hv]
  congr 1
  rw [hent]
  exact filter_of_middle _ _ _ _
    (fun x hx => by simp [bne_iff_ne, hid₁ x hx])
    (fun x hx => by simp [bne_iff_ne, hid₂ x hx])
    (by simp)

/-- On the addressed project, when no entry matches the date, a positive
value appends exactly one new entry with the given date and hours. -/
theorem setEntryHoursProject_create {pid date : String} (nid : String) {v : ℚ}
    {p : Project}
    (hp : p.id = pid) (hnone : ∀ x ∈ p.entries, x.date ≠ date)
    (hv : 0 < v) :
    setEntryHoursProject pid date nid v p =
      { p with entries := p.entries ++ [{ id := nid, date := date, hours := JsVal.num v }] } := by
  have hfind : p.entries.find? (fun entry => entry.date == date) = none :=
    List.find?_eq_none.mpr (fun x hx => by simp [hnone x hx])
  simp [setEntryHoursProject, hp, hfind, not_le.mpr hv]

/-- On the addressed project, when no entry matches the date, a value
≤ 0 changes nothing. -/
theorem setEntryHoursProject_noop {pid date : String} (nid : String) {v : ℚ}
    {p : Project}
    (hp : p.id = pid) (hnone : ∀ x ∈ p.entries, x.date ≠ date)
    (hv : v ≤ 0) :
    setEntryHoursProject pid date nid v p = p := by
  have hfind : p.entries.find? (fun entry => entry.date == date) = none :=
    List.find?_eq_none.mpr (fun x hx => by simp [hnone x hx])
  simp [setEntryHoursProject, hp, hfind, hv]

/-- Lifting a per-project result through `setEntryHours` on a document
whose other projects all have a different id. -/
theorem setEntryHours_split {doc : Doc} {P₁ P₂ : List Project} {p : Project}
    {pid : String} (nid date : String) {v : ℚ} {hoursValue : JsVal}
    (hnum : toNumber hoursValue = some v)
    (hdoc : doc.projects = P₁ ++ p :: P₂)
    (h₁ : ∀ q ∈ P₁, q.id ≠ pid) (h₂ : ∀ q ∈ P₂, q.id ≠ pid) :
    setEntryHours nid doc pid date hoursValue =
      { doc with projects := P₁ ++ setEntryHoursProject pid date nid v p :: P₂ } := by
  simp only [setEntryHours, hnum]
  congr 1
  rw [hdoc]
  exact map_of_middle _ _ _ _
    (fun q hq => setEntryHoursProject_skip date nid v (h₁ q hq))
    (fun q hq => setEntryHoursProject_skip date nid v (h₂ q hq))

theorem jsAdd_some (x y : ℚ) : jsAdd (some x) (some y) = some (x + y) := rfl

/-- Evaluation of the `sumHours` fold when every entry's coerced hours
is a (finite) number `g e`. -/
theorem sumHours_foldl_eq (g : Entry → ℚ) :
    ∀ (l : List Entry) (acc : ℚ), (∀ e ∈ l, coerceHours e.hours = some (g e)) →
      l.foldl (fun total entry => jsAdd total (coerceHours entry.hours)) (some acc) =
        some (acc + (l.map g).sum) := by
  intro l
  induction l with
  | nil => intro acc _; simp
  | cons e t ih =>
    intro acc h
    have he : coerceHours e.hours = some (g e) := h e (by simp)
    simp only [List.foldl_cons, he, jsAdd_some]
    rw [ih (acc + g e) (fun x hx => h x (by simp [hx]))]
    simp [add_assoc]

theorem sumHours_eq (g : Entry → ℚ) (l : List Entry)
    (h : ∀ e ∈ l, coerceHours e.hours = some (g e)) :
    sumHours l = some ((l.map g).sum) := by
  have := sumHours_foldl_eq g l 0 h
  simpa [sumHours] using this

/-- Evaluation of the `getProjectHours` fold under the same hypothesis:
it is the plain sum of `g` over the in-range entries. -/
theorem getProjectHours_foldl_eq (g : Entry → ℚ) (r : DateRange) :
    ∀ (l : List Entry) (acc : ℚ), (∀ e ∈ l, coerceHours e.hours = some (g e)) →
      l.foldl
          (fun total entry =>
            if isInRange r entry.date then jsAdd total (coerceHours entry.hours) else total)
          (some acc) =
        some (acc + ((l.filter (fun e => isInRange r e.date)).map g).sum) := by
  intro l
  induction l with
  | nil => intro acc _; simp
  | cons e t ih =>
    intro acc h
    have he : coerceHours e.hours = some (g e) := h e (by simp)
    have iht := fun acc => ih acc (fun x hx => h x (by simp [hx]))
    by_cases hr : isInRange r e.date = true
    · simp only [List.foldl_cons, hr, if_true, he, jsAdd_some, List.filter_cons,
        List.map_cons, List.sum_cons]
      rw [iht (acc + g e)]
      simp [add_assoc]
    · simp only [List.foldl_cons, if_neg hr, List.filter_cons]
      rw [iht acc]

theorem getProjectHours_eq (g : Entry → ℚ) (r : DateRange) (l : List Entry)
    (h : ∀ e ∈ l, coerceHours e.hours = some (g e)) :
    getProjectHours r l = some (((l.filter (fun e => isInRange r e.date)).map g).sum) := by
  have := getProjectHours_foldl_eq g r l 0 h
  simpa [getProjectHours] using this

/-- With non-negative per-entry values, widening the filter predicate
can only grow the filtered sum. -/
theorem filter_map_sum_le (g : Entry → ℚ) (p q : Entry → Bool) :
    ∀ l : List Entry, (∀ e ∈ l, 0 ≤ g e) → (∀ e ∈ l, p e = true → q e = true) →
      ((l.filter p).map g).sum ≤ ((l.filter q).map g).sum := by
  intro l
  induction l with
  | nil => simp
  | cons e t ih =>
    intro hpos himp
    have iht := ih (fun x hx => hpos x (by simp [hx])) (fun x hx => himp x (by simp [hx]))
    by_cases hp : p e = true
    · have hq := himp e (by simp) hp
      simp only [List.filter_cons, hp, if_true, hq, List.map_cons, List.sum_cons]
      linarith
    · by_cases hq : q e = true
      · have := hpos e (by simp)
        simp only [List.filter_cons, hp, Bool.false_eq_true, if_false, hq, if_true,
          List.map_cons, List.sum_cons]
        linarith
      · simp only [List.filter_cons, hp, hq, Bool.false_eq_true, if_false]
        exact iht

/-- The lookup table of `entryByDate` holds, for each date key, the
coerced hours of the LAST entry with that date (later assignments
overwrite earlier ones). -/
theorem entryByDate_foldl_eq :
    ∀ (l : List Entry) (acc : String → Option (Option ℚ)) (d : String),
      (l.foldl
          (fun accumulator entry =>
            fun x => if x == entry.date then some (coerceHours entry.hours) else accumulator x)
          acc) d =
        match l.reverse.find? (fun e => e.date == d) with
        | some e => some (coerceHours e.hours)
        | none => acc d := by
  intro l
  induction l with
  | nil => intro acc d; rfl
  | cons e t ih =>
    intro acc d
    simp only [List.foldl_cons, List.reverse_cons, List.find?_append]
    rw [ih]
    cases hfind : t.reverse.find? (fun x => x.date == d) with
    | some e' => simp
    | none =>
      simp only [Option.none_or]
      by_cases hd : e.date = d
      · subst hd
        simp [List.find?_cons_of_pos]
      · have h1 : (e.date == d) = false := by simp [hd]
        have h2 : (d == e.date) = false := by simp [Ne.symm hd]
        simp [List.find?_cons_of_neg, h1, h2]

/-- Pointwise form of the C1 hypothesis: a falsy or finite non-negative
hours value coerces to exactly its spec contribution. -/
theorem coerceHours_of_ok {hv : JsVal}
    (h : truthy hv = false ∨ ∃ x : ℚ, 0 ≤ x ∧ hv = JsVal.num x) :
    coerceHours hv = some (nonnegHours hv) := by
  rcases h with h | ⟨x, hx, rfl⟩
  · cases hv with
    | num x =>
      have hx : x = 0 := by
        by_contra hne
        simp [truthy, hne] at h
      simp [coerceHours, truthy, hx, toNumber, nonnegHours]
    | nan => simp [coerceHours, truthy, toNumber, nonnegHours]
    | str s => simp [coerceHours, h, toNumber, nonnegHours]
    | bool b =>
      have hb : b = false := by simpa [truthy] using h
      simp [coerceHours, truthy, hb, toNumber, nonnegHours]
    | null => simp [coerceHours, truthy, toNumber, nonnegHours]
    | undef => simp [coerceHours, truthy, toNumber, nonnegHours]
  · by_cases hx0 : x = 0
    · simp [coerceHours, truthy, hx0, toNumber, nonnegHours]
    · simp [coerceHours, truthy, hx0, toNumber, nonnegHours, hx]

theorem isArrayJson_iff (o : Option Json) :
    isArrayJson o = true ↔ ∃ xs, o = some (Json.arr xs) := by
  cases o with
  | none => simp [isArrayJson]
  | some j => cases j <;> simp [isArrayJson]

/-! Claim theorems. -/

/-- C1, counterexample: an entry whose hours value is the negative number
-3 contributes -3 — not 0 — to `sumHours` and to the (all-time)
range-filtered per-project hours, so the computed total is -3, not the
sum 0 over the finite non-negative hours values. -/
theorem spec_c1_counterexample :
    sumHours [{ id := "e1", date := "2024-01-05", hours := JsVal.num (-3) }] = some (-3) ∧
    getProjectHours none [{ id := "e1", date := "2024-01-05", hours := JsVal.num (-3) }] =
      some (-3) ∧
    specNonnegSum [{ id := "e1", date := "2024-01-05", hours := JsVal.num (-3) }] = 0 ∧
    some ((-3 : ℚ)) ≠ some (0 : ℚ) := by
  refine ⟨?_, ?_, ?_, by norm_num⟩
  · norm_num [sumHours, jsAdd, coerceHours, toNumber, truthy]
  · norm_num [getProjectHours, isInRange, jsAdd, coerceHours, toNumber, truthy]
  · norm_num [specNonnegSum, nonnegHours]

/-- C1, amended: an entry whose hours value is falsy (0, NaN, null,
undefined, false, or the empty string) contributes exactly 0 to
`sumHours` and to the range-filtered per-project hours; hence on every
entry list whose hours values are each either falsy or a finite
non-negative number, the computed total equals the sum over only the
finite non-negative hours values.  (A finite negative hours value,
however, contributes its negative value, and a truthy non-numeric one
makes the whole total NaN.) -/
theorem spec_c1_amended (entries : List Entry)
    (h : ∀ e ∈ entries, truthy e.hours = false ∨ ∃ x : ℚ, 0 ≤ x ∧ e.hours = JsVal.num x) :
    sumHours entries = some (specNonnegSum entries) ∧
    ∀ range, getProjectHours range entries =
      some (specNonnegSum (entries.filter (fun e => isInRange range e.date))) := by
  have hpt : ∀ e ∈ entries, coerceHours e.hours = some (nonnegHours e.hours) :=
    fun e he => coerceHours_of_ok (h e he)
  constructor
  · simpa [specNonnegSum] using sumHours_eq (fun e => nonnegHours e.hours) entries hpt
  · intro range
    simpa [specNonnegSum] using
      getProjectHours_eq (fun e => nonnegHours e.hours) range entries hpt

/-- C1, witness: on a list with a positive, a zero and a NaN hours value
the total is the sum of the non-negative finite values, here 2. -/
theorem spec_c1_amended_witness :
    sumHours [{ id := "a", date := "2024-01-05", hours := JsVal.num 2 },
              { id := "b", date := "2024-01-06", hours := JsVal.nan },
              { id := "c", date := "2024-01-07", hours := JsVal.num 0 }] =
      some (specNonnegSum [{ id := "a", date := "2024-01-05", hours := JsVal.num 2 },
              { id := "b", date := "2024-01-06", hours := JsVal.nan },
              { id := "c", date := "2024-01-07", hours := JsVal.num 0 }]) ∧
    specNonnegSum [{ id := "a", date := "2024-01-05", hours := JsVal.num 2 },
              { id := "b", date := "2024-01-06", hours := JsVal.nan },
              { id := "c", date := "2024-01-07", hours := JsVal.num 0 }] = 2 := by
  constructor
  · exact (spec_c1_amended _ (by
      intro e he
      simp only [List.mem_cons, List.not_mem_nil, or_false] at he
      rcases he with rfl | rfl | rfl
      · right; exact ⟨2, by norm_num, rfl⟩
      · left; rfl
      · left; simp [truthy])).1
  · norm_num [specNonnegSum, nonnegHours]

/-- C2, counterexample: two entries share the date 2024-01-05 with hours
2 and 3; the calendar lookup for that date yields 3 (the last entry),
while the sum of their hours is 5. -/
theorem spec_c2_counterexample :
    entryByDate [{ id := "a", date := "2024-01-05", hours := JsVal.num 2 },
                 { id := "b", date := "2024-01-05", hours := JsVal.num 3 }] "2024-01-05" =
      some (some 3) ∧
    sumHours [{ id := "a", date := "2024-01-05", hours := JsVal.num 2 },
              { id := "b", date := "2024-01-05", hours := JsVal.num 3 }] = some 5 ∧
    some (some ((3 : ℚ))) ≠ some (some ((5 : ℚ))) := by
  refine ⟨?_, ?_, by norm_num⟩
  · norm_num [entryByDate, coerceHours, toNumber, truthy]
  · norm_num [sumHours, jsAdd, coerceHours, toNumber, truthy]

/-- C2, amended: the non-placeholder calendar cell resolves its hours by
exact date-string match, but when two or more entries share the date the
cell shows the coerced hours of the LAST such entry in sequence order
(later table assignments overwrite earlier ones), not the sum of all of
them. -/
theorem spec_c2_amended (entries : List Entry) (d : String) :
    entryByDate entries d =
      (entries.reverse.find? (fun e => e.date == d)).map (fun e => coerceHours e.hours) := by
  rw [entryByDate, entryByDate_foldl_eq]
  cases entries.reverse.find? (fun e => e.date == d) <;> simp

/-- C3, counterexample: on a project with an existing entry for
2024-01-05, a calendar-grid write of the non-numeric value NaN does NOT
delete the entry — `setEntryHours` returns the document unchanged, the
entry for that date still present. -/
theorem spec_c3_counterexample :
    setEntryHours "n1" demoDoc "p1" "2024-01-05" JsVal.nan = demoDoc ∧
    demoDoc.projects.map (fun p => p.entries.map Entry.date) = [["2024-01-05"]] :=
  ⟨rfl, rfl⟩

/-- C3, amended: on a project with an existing entry for the date, a
calendar-grid write via `setHoursForDate` of zero hours (or of any value
coercing to a finite number ≤ 0) deletes that underlying entry; a write
of a non-numeric value (one whose `Number` coercion is not finite) is
instead a no-op that leaves the document — and the entry — unchanged. -/
theorem spec_c3_amended (nid : String) (doc : Doc) (pid date : String) :
    (∀ hoursValue, toNumber hoursValue = none →
      setEntryHours nid doc pid date hoursValue = doc) ∧
    (∀ P₁ P₂ p, doc.projects = P₁ ++ p :: P₂ → p.id = pid →
      (∀ q ∈ P₁, q.id ≠ pid) → (∀ q ∈ P₂, q.id ≠ pid) →
      ∀ l₁ (e : Entry) l₂, p.entries = l₁ ++ e :: l₂ →
        (∀ x ∈ l₁, x.date ≠ date) → e.date = date →
        (∀ x ∈ l₁, x.id ≠ e.id) → (∀ x ∈ l₂, x.id ≠ e.id) →
        ∀ hoursValue v, toNumber hoursValue = some v → v ≤ 0 →
          setEntryHours nid doc pid date hoursValue =
            { doc with projects := P₁ ++ { p with entries := l₁ ++ l₂ } :: P₂ }) := by
  constructor
  · intro hv h
    simp [setEntryHours, h]
  · intro P₁ P₂ p hdoc hp h₁ h₂ l₁ e l₂ hent hd₁ hd₂ hi₁ hi₂ hv v hnum hle
    rw [setEntryHours_split nid date hnum hdoc h₁ h₂,
      setEntryHoursProject_delete nid hp hent hd₁ hd₂ hi₁ hi₂ hle]

/-- C3, witness: a write of 0 on the demo document deletes its single
entry, and a NaN write leaves it alone. -/
theorem spec_c3_amended_witness :
    setEntryHours "n1" demoDoc "p1" "2024-01-05" (JsVal.num 0) =
      { profile := demoDoc.profile
        projects := [{ id := "p1", name := "Atlas redesign", rate := JsVal.num 85,
                       archived := false, entries := [] }] } ∧
    setEntryHours "n1" demoDoc "p1" "2024-01-05" JsVal.nan = demoDoc := by
  constructor
  · exact (spec_c3_amended "n1" demoDoc "p1" "2024-01-05").2 []
      [] _ rfl rfl (by simp) (by simp) [] _ [] rfl (by simp) rfl (by simp) (by simp)
      (JsVal.num 0) 0 rfl le_rfl
  · exact (spec_c3_amended "n1" demoDoc "p1" "2024-01-05").1 JsVal.nan rfl

/-- C4: the upsert-or-delete contract of `setHoursForDate` for finite
numeric values.  With the addressed project decomposed out of the
document (all other project ids distinct): when an entry for the date
exists (first match `e`, ids unique), a value > 0 updates exactly that
entry's hours and a value ≤ 0 deletes exactly that entry; when no entry
for the date exists, a value > 0 appends exactly one new entry
`{date, hours}` and a value ≤ 0 leaves the document unchanged. -/
theorem spec_c4 (nid : String) (doc : Doc) (pid date : String) (v : ℚ)
    (P₁ P₂ : List Project) (p : Project)
    (hdoc : doc.projects = P₁ ++ p :: P₂) (hp : p.id = pid)
    (h₁ : ∀ q ∈ P₁, q.id ≠ pid) (h₂ : ∀ q ∈ P₂, q.id ≠ pid) :
    (∀ l₁ (e : Entry) l₂, p.entries = l₁ ++ e :: l₂ →
      (∀ x ∈ l₁, x.date ≠ date) → e.date = date →
      (∀ x ∈ l₁, x.id ≠ e.id) → (∀ x ∈ l₂, x.id ≠ e.id) →
      (0 < v →
        setEntryHours nid doc pid date (JsVal.num v) =
          { doc with projects :=
              P₁ ++ { p with entries := l₁ ++ { e with hours := JsVal.num v } :: l₂ } :: P₂ }) ∧
      (v ≤ 0 →
        setEntryHours nid doc pid date (JsVal.num v) =
          { doc with projects := P₁ ++ { p with entries := l₁ ++ l₂ } :: P₂ })) ∧
    ((∀ x ∈ p.entries, x.date ≠ date) →
      (0 < v →
        setEntryHours nid doc pid date (JsVal.num v) =
          { doc with projects :=
              P₁ ++ { p with entries :=
                p.entries ++ [{ id := nid, date := date, hours := JsVal.num v }] } :: P₂ }) ∧
      (v ≤ 0 → setEntryHours nid doc pid date (JsVal.num v) = doc)) := by
  have hnum : toNumber (JsVal.num v) = some v := rfl
  constructor
  · intro l₁ e l₂ hent hd₁ hd₂ hi₁ hi₂
    constructor
    · intro hpos
      rw [setEntryHours_split nid date hnum hdoc h₁ h₂,
        setEntryHoursProject_update nid hp hent hd₁ hd₂ hi₁ hi₂ hpos]
    · intro hle
      rw [setEntryHours_split nid date hnum hdoc h₁ h₂,
        setEntryHoursProject_delete nid hp hent hd₁ hd₂ hi₁ hi₂ hle]
  · intro hnone
    constructor
    · intro hpos
      rw [setEntryHours_split nid date hnum hdoc h₁ h₂,
        setEntryHoursProject_create nid hp hnone hpos]
    · intro hle
      rw [setEntryHours_split nid date hnum hdoc h₁ h₂,
        setEntryHoursProject_noop nid hp hnone hle, ← hdoc]

/-- C4, witness: on the demo document, writing 0 for 2024-01-05 removes
the entry; writing 3 to the resulting entry-less project creates exactly
one new entry with that date and hours 3. -/
theorem spec_c4_witness :
    setEntryHours "n1" demoDoc "p1" "2024-01-05" (JsVal.num 0) =
      { profile := demoDoc.profile
        projects := [{ id := "p1", name := "Atlas redesign", rate := JsVal.num 85,
                       archived := false, entries := [] }] } ∧
    setEntryHours "n2"
        { profile := demoDoc.profile
          projects := [{ id := "p1", name := "Atlas redesign", rate := JsVal.num 85,
                         archived := false, entries := [] }] }
        "p1" "2024-01-05" (JsVal.num 3) =
      { profile := demoDoc.profile
        projects := [{ id := "p1", name := "Atlas redesign", rate := JsVal.num 85,
                       archived := false,
                       entries := [{ id := "n2", date := "2024-01-05", hours := JsVal.num 3 }] }] } := by
  constructor
  · exact ((spec_c4 "n1" demoDoc "p1" "2024-01-05" 0 [] [] _ rfl rfl (by simp) (by simp)).1
      [] _ [] rfl (by simp) rfl (by simp) (by simp)).2 le_rfl
  · exact ((spec_c4 "n2"
      { profile := demoDoc.profile
        projects := [{ id := "p1", name := "Atlas redesign", rate := JsVal.num 85,
                       archived := false, entries := [] }] }
      "p1" "2024-01-05" 3 [] [] _ rfl rfl (by simp) (by simp)).2
      (by simp) ).1 (by norm_num)

/-- C8: `deleteProject` removes exactly the addressed project together
with all entries nested under it; every other project — entries, rate,
name and archived flag included — appears verbatim in the result, and
the profile is unchanged. -/
theorem spec_c8 (doc : Doc) (P₁ P₂ : List Project) (p : Project)
    (hdoc : doc.projects = P₁ ++ p :: P₂)
    (h₁ : ∀ q ∈ P₁, q.id ≠ p.id) (h₂ : ∀ q ∈ P₂, q.id ≠ p.id) :
    removeProject doc p.id = { profile := doc.profile, projects := P₁ ++ P₂ } := by
  cases doc with
  | mk profile projects =>
    simp only at hdoc
    subst hdoc
    simp only [removeProject, Doc.mk.injEq, true_and]
    exact filter_of_middle _ _ _ _
      (fun q hq => by simp [bne_iff_ne, h₁ q hq])
      (fun q hq => by simp [bne_iff_ne, h₂ q hq])
      (by simp)

/-- C8, witness: deleting the only project of the demo document leaves
an empty project list and the profile untouched. -/
theorem spec_c8_witness :
    removeProject demoDoc "p1" = { profile := demoDoc.profile, projects := [] } :=
  spec_c8 demoDoc [] [] _ rfl (by simp) (by simp)

/-- C10: when a project holds two or more entries with the same date,
`setHoursForDate` for that date updates or deletes only the FIRST such
entry in sequence order (here `e`, with the duplicates witnessed in the
tail `l₂`); every later entry with that same date is returned verbatim. -/
theorem spec_c10 (nid : String) (doc : Doc) (pid date : String) (v : ℚ)
    (P₁ P₂ : List Project) (p : Project)
    (hdoc : doc.projects = P₁ ++ p :: P₂) (hp : p.id = pid)
    (h₁ : ∀ q ∈ P₁, q.id ≠ pid) (h₂ : ∀ q ∈ P₂, q.id ≠ pid)
    (l₁ : List Entry) (e : Entry) (l₂ : List Entry)
    (hent : p.entries = l₁ ++ e :: l₂)
    (hd₁ : ∀ x ∈ l₁, x.date ≠ date) (hd₂ : e.date = date)
    (hi₁ : ∀ x ∈ l₁, x.id ≠ e.id) (hi₂ : ∀ x ∈ l₂, x.id ≠ e.id)
    (_hdup : ∃ x ∈ l₂, x.date = date) :
    (0 < v →
      setEntryHours nid doc pid date (JsVal.num v) =
        { doc with projects :=
            P₁ ++ { p with entries := l₁ ++ { e with hours := JsVal.num v } :: l₂ } :: P₂ }) ∧
    (v ≤ 0 →
      setEntryHours nid doc pid date (JsVal.num v) =
        { doc with projects := P₁ ++ { p with entries := l₁ ++ l₂ } :: P₂ }) := by
  have hnum : toNumber (JsVal.num v) = some v := rfl
  constructor
  · intro hpos
    rw [setEntryHours_split nid date hnum hdoc h₁ h₂,
      setEntryHoursProject_update nid hp hent hd₁ hd₂ hi₁ hi₂ hpos]
  · intro hle
    rw [setEntryHours_split nid date hnum hdoc h₁ h₂,
      setEntryHoursProject_delete nid hp hent hd₁ hd₂ hi₁ hi₂ hle]

/-- C10, witness: with two entries both dated 2024-01-05, a write of 7
updates only the first and a write of 0 deletes only the first; the
second entry (hours 2) survives verbatim in both cases. -/
theorem spec_c10_witness :
    setEntryHours "n1"
        { profile := { name := "", rate := JsVal.num 85 }
          projects := [{ id := "p1", name := "Atlas redesign", rate := JsVal.num 85,
                         archived := false,
                         entries := [{ id := "e1", date := "2024-01-05", hours := JsVal.num 4 },
                                     { id := "e2", date := "2024-01-05", hours := JsVal.num 2 }] }] }
        "p1" "2024-01-05" (JsVal.num 0) =
      { profile := { name := "", rate := JsVal.num 85 }
        projects := [{ id := "p1", name := "Atlas redesign", rate := JsVal.num 85,
                       archived := false,
                       entries := [{ id := "e2", date := "2024-01-05", hours := JsVal.num 2 }] }] } := by
  exact (spec_c10 "n1"
    { profile := { name := "", rate := JsVal.num 85 }
      projects := [{ id := "p1", name := "Atlas redesign", rate := JsVal.num 85,
                     archived := false,
                     entries := [{ id := "e1", date := "2024-01-05", hours := JsVal.num 4 },
                                 { id := "e2", date := "2024-01-05", hours := JsVal.num 2 }] }] }
    "p1" "2024-01-05" 0 [] []
    { id := "p1", name := "Atlas redesign", rate := JsVal.num 85, archived := false,
      entries := [{ id := "e1", date := "2024-01-05", hours := JsVal.num 4 },
                  { id := "e2", date := "2024-01-05", hours := JsVal.num 2 }] }
    rfl rfl (by simp) (by simp)
    [] { id := "e1", date := "2024-01-05", hours := JsVal.num 4 }
    [{ id := "e2", date := "2024-01-05", hours := JsVal.num 2 }] rfl
    (by simp) rfl (by simp) (by simp)
    ⟨{ id := "e2", date := "2024-01-05", hours := JsVal.num 2 }, by simp, rfl⟩).2 le_rfl

/-- C5, counterexample: the body `{"state": {}}` is well-formed JSON,
yet `PUT /api/state` rejects it with 400 because of its shape (no
truthy `profile`, no `projects` array) and stores nothing. -/
theorem spec_c5_counterexample :
    putStateAccepts (Json.obj [("state", Json.obj [])]) = false ∧
    putState none (Json.obj [("state", Json.obj [])]) = (none, 400) :=
  ⟨rfl, rfl⟩

/-- C5, amended: `PUT /api/state` does validate the payload's shape: a
valid-JSON body is stored (the `state` blob verbatim, with 200) exactly
when its `state` field has a truthy `profile` and a `projects` array;
every other well-formed JSON body is rejected with 400 and leaves the
stored row untouched. -/
theorem spec_c5_amended (stored : Option Json) (body : Json) :
    (putStateAccepts body = true ↔ validStateShape body) ∧
    (putStateAccepts body = true → putState stored body = (jsonField body "state", 200)) ∧
    (putStateAccepts body = false → putState stored body = (stored, 400)) := by
  refine ⟨?_, ?_, ?_⟩
  · simp only [putStateAccepts, validStateShape]
    cases hstate : jsonField body "state" with
    | none => simp
    | some st =>
      cases hprof : jsonField st "profile" with
      | none => simp [hprof]
      | some v =>
        simp [hprof, isArrayJson_iff]
  · intro h
    simp [putState, h]
  · intro h
    simp [putState, h]

/-- C5, witness: a body whose state carries a truthy profile and a
projects array is accepted and its state blob stored verbatim; the
malformed body of the counterexample is rejected. -/
theorem spec_c5_amended_witness :
    putState none
        (Json.obj [("state",
          Json.obj [("profile", Json.obj [("name", Json.str "")]), ("projects", Json.arr [])])]) =
      (some (Json.obj [("profile", Json.obj [("name", Json.str "")]), ("projects", Json.arr [])]),
        200) ∧
    putState none (Json.obj [("state", Json.bool true)]) = (none, 400) := by
  constructor
  · exact (spec_c5_amended none
      (Json.obj [("state",
        Json.obj [("profile", Json.obj [("name", Json.str "")]),
          ("projects", Json.arr [])])])).2.1 rfl
  · exact (spec_c5_amended none (Json.obj [("state", Json.bool true)])).2.2 rfl

/-- C6, counterexample: normalizing a persisted document whose single
project has no rate of its own does NOT leave that rate unset — it
copies the profile rate 85 into the project, and the normalized (hence
persisted-on-next-write) state carries the copy. -/
theorem spec_c6_counterexample :
    (normalizeState rawDemo).projects.map Project.rate = [JsVal.num 85] ∧
    JsVal.num 85 ≠ JsVal.undef := by
  refine ⟨rfl, by simp⟩

/-- C6, amended: loading/normalizing a document materializes the
fallback into the stored state: `normalizeState` gives every project
whose own rate is nullish the rate `profile.rate ?? 0` as a persisted
copy; `getProjectRate` additionally applies the same fallback at read
time for a project whose rate is undefined. -/
theorem spec_c6_amended :
    (∀ (raw : RawDoc) (i : ℕ) (h1 : i < (normalizeState raw).projects.length)
        (h2 : i < raw.projects.length),
      nullish (raw.projects.get ⟨i, h2⟩).rate = true →
      ((normalizeState raw).projects.get ⟨i, h1⟩).rate =
        coalesce raw.profile.rate (JsVal.num 0)) ∧
    (∀ profileRate : JsVal,
      getProjectRate profileRate JsVal.undef = toNumber (coalesce profileRate (JsVal.num 0))) := by
  constructor
  · intro raw i h1 h2 hnull
    simp only [List.get_eq_getElem] at hnull ⊢
    simp only [normalizeState, List.getElem_map]
    simp [normalizeProject, coalesce, hnull]
  · intro profileRate
    simp [getProjectRate, coalesce, nullish]

/-- C6, witness: the demo raw document's project, which lacks a rate,
ends up with the profile's rate 85 materialized by `normalizeState`. -/
theorem spec_c6_amended_witness :
    ((normalizeState rawDemo).projects.get ⟨0, by decide⟩).rate =
      coalesce (JsVal.num 85) (JsVal.num 0) :=
  spec_c6_amended.1 rawDemo 0 (by decide) (by decide) rfl

/-- C7, counterexample: with an entry of -5 hours dated 2024-01-05, the
one-day range [2024-01-10, 2024-01-10] is contained in the month range
[2024-01-01, 2024-01-31], yet widening the filter DECREASES the sum
from 0 to -5 (the JS comparison wider >= narrower is false). -/
theorem spec_c7_counterexample :
    rangeSub (some ("2024-01-10", "2024-01-10")) (some ("2024-01-01", "2024-01-31")) = true ∧
    getProjectHours (some ("2024-01-10", "2024-01-10"))
        [{ id := "a", date := "2024-01-05", hours := JsVal.num (-5) }] = some 0 ∧
    getProjectHours (some ("2024-01-01", "2024-01-31"))
        [{ id := "a", date := "2024-01-05", hours := JsVal.num (-5) }] = some (-5) ∧
    jsGe (some ((-5 : ℚ))) (some 0) = false := by
  refine ⟨by decide, ?_, ?_, ?_⟩
  · have h : isInRange (some ("2024-01-10", "2024-01-10")) "2024-01-05" = false := by decide
    simp [getProjectHours, h]
  · have h : isInRange (some ("2024-01-01", "2024-01-31")) "2024-01-05" = true := by decide
    norm_num [getProjectHours, h, jsAdd, coerceHours, toNumber, truthy]
  · norm_num [jsGe]

/-- C7, amended: on every entry list whose hours all coerce to finite
non-negative numbers, `getProjectHours` is filter-monotonic — for
inclusive date ranges with the first contained in the second, the sum
over the wider range is ≥ the sum over the narrower one.  (Entries with
negative or NaN-coercing hours break this, as the counterexample
shows.) -/
theorem spec_c7_amended (entries : List Entry) (r₁ r₂ : DateRange)
    (hsub : rangeSub r₁ r₂ = true)
    (hpos : ∀ e ∈ entries, ∃ x : ℚ, coerceHours e.hours = some x ∧ 0 ≤ x) :
    ∃ s₁ s₂, getProjectHours r₁ entries = some s₁ ∧
      getProjectHours r₂ entries = some s₂ ∧ s₁ ≤ s₂ := by
  have hpt : ∀ e ∈ entries, coerceHours e.hours = some ((coerceHours e.hours).getD 0) := by
    intro e he
    obtain ⟨x, hx, _⟩ := hpos e he
    simp [hx]
  have hgpos : ∀ e ∈ entries, 0 ≤ (coerceHours e.hours).getD 0 := by
    intro e he
    obtain ⟨x, hx, hx0⟩ := hpos e he
    simp [hx, hx0]
  refine ⟨_, _,
    getProjectHours_eq (fun e => (coerceHours e.hours).getD 0) r₁ entries hpt,
    getProjectHours_eq (fun e => (coerceHours e.hours).getD 0) r₂ entries hpt, ?_⟩
  exact filter_map_sum_le _ _ _ entries hgpos
    (fun e _ hp => isInRange_mono hsub hp)

/-- C7, witness: with a single 2-hour entry inside both ranges, widening
from the one-day range to the month range keeps the sum at least as
large. -/
theorem spec_c7_amended_witness :
    ∃ s₁ s₂,
      getProjectHours (some ("2024-01-05", "2024-01-05"))
          [{ id := "a", date := "2024-01-05", hours := JsVal.num 2 }] = some s₁ ∧
      getProjectHours (some ("2024-01-01", "2024-01-31"))
          [{ id := "a", date := "2024-01-05", hours := JsVal.num 2 }] = some s₂ ∧
      s₁ ≤ s₂ := by
  refine spec_c7_amended _ _ _ (by decide) ?_
  intro e he
  simp only [List.mem_cons, List.not_mem_nil, or_false] at he
  subst he
  exact ⟨2, by norm_num [coerceHours, truthy, toNumber], by norm_num⟩

/-- C9: the auth-gate step relation.  (a) From the unauthenticated
unlocked state, 5 consecutive failed submissions lock the gate with
`until = now + 30s` (the `now` of the fifth) and reset the attempt
counter.  (b) Any submission while `now < until` only sets the lockout
message: it is rejected and never increments the counter.  (c) A correct
submission at or after lockout expiry immediately authenticates and
resets the counter.  (d) With both expected values empty, every
submission matches. -/
theorem spec_c9 (cfg : AuthConfig) (u p : String) :
    (matchOk cfg u p = false →
      ∀ t₁ t₂ t₃ t₄ t₅ : Nat,
        submitSeq cfg { isAuthed := false, lockUntil := 0, failedAttempts := 0, error := "" }
            [(t₁, u, p), (t₂, u, p), (t₃, u, p), (t₄, u, p), (t₅, u, p)] =
          { isAuthed := false, lockUntil := t₅ + 30 * 1000, failedAttempts := 0,
            error := lockMessage }) ∧
    (∀ st (now : Nat), now < st.lockUntil →
      handleSubmit cfg st now u p = { st with error := lockMessage }) ∧
    (∀ st (now : Nat), st.lockUntil ≤ now → matchOk cfg u p = true →
      handleSubmit cfg st now u p = { st with isAuthed := true, failedAttempts := 0 }) ∧
    matchOk { expectedUser := "", expectedPass := "" } u p = true := by
  refine ⟨?_, ?_, ?_, by simp [matchOk]⟩
  · intro hm t₁ t₂ t₃ t₄ t₅
    simp [submitSeq, handleSubmit, hm]
  · intro st now hlock
    have h0 : st.lockUntil ≠ 0 := by omega
    simp [handleSubmit, bne_iff_ne, h0, hlock]
  · intro st now hexp hm
    have hlt : ¬ now < st.lockUntil := by omega
    simp [handleSubmit, hlt, hm]

/-- C9, witness: with only a password configured, 5 wrong submissions at
times 1..5 lock until 30005 with the counter reset; a wrong-or-right
submission at 30004 during the lock changes nothing but the message; the
correct password at exactly 30005 authenticates and resets the
counter. -/
theorem spec_c9_witness :
    submitSeq { expectedUser := "", expectedPass := "pw" }
        { isAuthed := false, lockUntil := 0, failedAttempts := 0, error := "" }
        [(1, "", "x"), (2, "", "x"), (3, "", "x"), (4, "", "x"), (5, "", "x")] =
      { isAuthed := false, lockUntil := 5 + 30 * 1000, failedAttempts := 0,
        error := lockMessage } ∧
    handleSubmit { expectedUser := "", expectedPass := "pw" }
        { isAuthed := false, lockUntil := 30005, failedAttempts := 0, error := lockMessage }
        30004 "" "pw" =
      { isAuthed := false, lockUntil := 30005, failedAttempts := 0, error := lockMessage } ∧
    handleSubmit { expectedUser := "", expectedPass := "pw" }
        { isAuthed := false, lockUntil := 30005, failedAttempts := 0, error := lockMessage }
        30005 "" "pw" =
      { isAuthed := true, lockUntil := 30005, failedAttempts := 0, error := lockMessage } := by
  refine ⟨(spec_c9 ⟨"", "pw"⟩ "" "x").1 (by decide) 1 2 3 4 5, ?_, ?_⟩
  · exact (spec_c9 ⟨"", "pw"⟩ "" "pw").2.1
      { isAuthed := false, lockUntil := 30005, failedAttempts := 0, error := lockMessage }
      30004 (by norm_num)
  · exact (spec_c9 ⟨"", "pw"⟩ "" "pw").2.2.1
      { isAuthed := false, lockUntil := 30005, failedAttempts := 0, error := lockMessage }
      30005 (by norm_num) (by decide)

end TimeTracker
